import Mathlib

/-!
Shallow embedding of the lease-based verification work queue implemented in
`VAREID/libraries/ui/db_scripts.py`.  The SQLite table `image_verification`
is modelled as a list of rows; each SQL statement becomes a pure function on
that list.  Timestamps (`datetime.now()` values) are modelled as integers
(seconds), so `timedelta(minutes=m)` is `m * 60`.  `cursor.rowcount` of an
`UPDATE` is the number of rows matched by its `WHERE` clause, and a rolled
back transaction leaves the table unchanged.
-/

namespace VAREID

/-- Timestamps, in seconds.  `datetime.now()` is passed in as a parameter. -/
abbrev Time := Int

/-- The `status` column: CHECK(status IN ('awaiting','in_progress','checked','sent')). -/
inductive Status where
  | awaiting
  | in_progress
  | checked
  | sent
deriving DecidableEq

/-- The `decision` column: CHECK(decision IN ('none','correct','incorrect','cant_tell')). -/
inductive Decision where
  | none
  | correct
  | incorrect
  | cant_tell
deriving DecidableEq

/-- One row of the `image_verification` table (see `init_db`).  The `id`
primary key (caller-assigned, orderable, the claim tie-break) is modelled as
a natural number; its order stands for the collation used by `ORDER BY id`. -/
structure Row where
  id : Nat
  uuid1 : String
  image1_path : String
  bbox1 : String
  cluster1 : String
  uuid2 : String
  image2_path : String
  bbox2 : String
  cluster2 : String
  status : Status
  decision : Decision
  started_at : Option Time
  completed_at : Option Time
  instance_id : Option String
  heartbeat : Option Time
deriving DecidableEq

/-- The table contents. -/
abbrev DB := List Row

/-- Look a row up by primary key. -/
def findRow (db : DB) (i : Nat) : Option Row :=
  db.find? (fun r => decide (r.id = i))

/-- Well-formedness: `id` is the PRIMARY KEY, so ids are pairwise distinct. -/
def WF (db : DB) : Prop := (db.map Row.id).Nodup

/-- Input tuple of `add_image_pairs`:
`(id, uuid1, image1_path, bbox1, cluster1, uuid2, image2_path, bbox2, cluster2)`. -/
structure PairInput where
  id : Nat
  uuid1 : String
  image1_path : String
  bbox1 : String
  cluster1 : String
  uuid2 : String
  image2_path : String
  bbox2 : String
  cluster2 : String
deriving DecidableEq

/-- The row created by the INSERT of `add_image_pairs`: the listed columns get
the input values, `status` the literal `'awaiting'`, and the remaining columns
their defaults (`decision` DEFAULT `'none'`, the rest NULL). -/
def newRow (p : PairInput) : Row :=
  { id := p.id, uuid1 := p.uuid1, image1_path := p.image1_path, bbox1 := p.bbox1,
    cluster1 := p.cluster1, uuid2 := p.uuid2, image2_path := p.image2_path,
    bbox2 := p.bbox2, cluster2 := p.cluster2,
    status := Status.awaiting, decision := Decision.none,
    started_at := Option.none, completed_at := Option.none,
    instance_id := Option.none, heartbeat := Option.none }

/-- Model of `add_image_pairs`: an `executemany` of `INSERT OR IGNORE`, one row per input
tuple, processed in order; a tuple whose `id` is already present (including
one inserted earlier in the same batch) is ignored and contributes 0 to the
accumulated `rowcount`, which is returned. -/
def add_image_pairs : List PairInput → DB → Nat × DB
  | [], db => (0, db)
  | p :: rest, db =>
    if db.any (fun r => decide (r.id = p.id)) then
      add_image_pairs rest db
    else
      let res := add_image_pairs rest (db ++ [newRow p])
      (res.1 + 1, res.2)

/-- WHERE clause of `get_decisions`: `id IN (pair_ids) AND status = 'checked'`. -/
def decisionHit (pair_ids : List Nat) (r : Row) : Bool :=
  pair_ids.contains r.id && decide (r.status = Status.checked)

/-- Model of `get_decisions`: SELECT `id, decision` of the `checked` rows among
`pair_ids`, then (if any) UPDATE those same rows to `'sent'`; returns the
selected `(id, decision)` pairs (the Python dict). -/
def get_decisions (pair_ids : List Nat) (db : DB) : List (Nat × Decision) × DB :=
  if pair_ids.isEmpty then ([], db)
  else
    let results := (db.filter (decisionHit pair_ids)).map (fun r => (r.id, r.decision))
    if results.isEmpty then (results, db)
    else
      (results,
       db.map (fun r =>
         if decisionHit pair_ids r then { r with status := Status.sent } else r))

/-- WHERE clause shared by `get_existing_pair_decision` and `check_pair_exists`:
`(uuid1 = a AND uuid2 = b) OR (uuid1 = b AND uuid2 = a)`. -/
def pairWhere (a b : String) (r : Row) : Bool :=
  decide ((r.uuid1 = a ∧ r.uuid2 = b) ∨ (r.uuid1 = b ∧ r.uuid2 = a))

/-- Model of `get_existing_pair_decision`: SELECT `decision` ... WHERE the pair matches
in either order AND `status IN ('checked','sent')` LIMIT 1. -/
def get_existing_pair_decision (a b : String) (db : DB) : Option Decision :=
  (db.find? (fun r =>
      pairWhere a b r && decide (r.status = Status.checked ∨ r.status = Status.sent))).map
    Row.decision

/-- Model of `check_pair_exists`: SELECT `status, decision` ... WHERE the pair matches
in either order LIMIT 1; returns `(exists, status, decision)`. -/
def check_pair_exists (a b : String) (db : DB) : Bool × Option Status × Option Decision :=
  match db.find? (pairWhere a b) with
  | some r => (true, some r.status, some r.decision)
  | Option.none => (false, Option.none, Option.none)

/-- Model of `reset_instance_pairs`: UPDATE rows `in_progress` owned by this instance
back to `awaiting`, clearing `started_at`, `instance_id`, `heartbeat`;
returns the rowcount. -/
def reset_instance_pairs (inst : String) (db : DB) : Nat × DB :=
  (db.countP (fun r => decide (r.status = Status.in_progress ∧ r.instance_id = some inst)),
   db.map (fun r =>
     if decide (r.status = Status.in_progress ∧ r.instance_id = some inst) then
       { r with status := Status.awaiting, started_at := Option.none,
                instance_id := Option.none, heartbeat := Option.none }
     else r))

/-- WHERE clause of `reset_stale_pairs`:
`status = 'in_progress' AND (heartbeat IS NULL OR heartbeat < timeout_time)`
with `timeout_time = now - timedelta(minutes=timeout_minutes)`. -/
def staleHit (now : Time) (timeout_minutes : Int) (r : Row) : Bool :=
  decide (r.status = Status.in_progress) &&
  (match r.heartbeat with
   | Option.none => true
   | some hb => decide (hb < now - timeout_minutes * 60))

/-- Model of `reset_stale_pairs`: UPDATE every stale `in_progress` row back to
`awaiting`, clearing `started_at`, `instance_id`, `heartbeat`; returns the
rowcount.  The Python default for `timeout_minutes` is 5. -/
def reset_stale_pairs (db : DB) (now : Time) (timeout_minutes : Int := 5) : Nat × DB :=
  (db.countP (staleHit now timeout_minutes),
   db.map (fun r =>
     if staleHit now timeout_minutes r then
       { r with status := Status.awaiting, started_at := Option.none,
                instance_id := Option.none, heartbeat := Option.none }
     else r))

/-- SELECT of `get_next_pair_atomic`: the row with the least `id` among those
WHERE `status = 'awaiting'` (ORDER BY id ASC LIMIT 1). -/
def selectNextAwaiting (db : DB) : Option Row :=
  (db.filter (fun r => decide (r.status = Status.awaiting))).argmin Row.id

/-- Conditional UPDATE of `get_next_pair_atomic`:
SET `status='in_progress', started_at=now, instance_id=inst, heartbeat=now`
WHERE `id = pair_id AND status = 'awaiting'`; returns `(rowcount, table)`. -/
def claimUpdate (inst : String) (now : Time) (pair_id : Nat) (db : DB) : Nat × DB :=
  (db.countP (fun r => decide (r.id = pair_id ∧ r.status = Status.awaiting)),
   db.map (fun r =>
     if decide (r.id = pair_id ∧ r.status = Status.awaiting) then
       { r with status := Status.in_progress, started_at := some now,
                instance_id := some inst, heartbeat := some now }
     else r))

/-- Model of `get_next_pair_atomic`: in one transaction, SELECT the least awaiting row;
if none, roll back and return None.  Otherwise run the conditional UPDATE; on
`rowcount = 1` commit and return the selected row, otherwise roll back and
return None. -/
def get_next_pair_atomic (inst : String) (now : Time) (db : DB) : Option Row × DB :=
  match selectNextAwaiting db with
  | Option.none => (Option.none, db)
  | some r =>
    let u := claimUpdate inst now r.id db
    if u.1 = 1 then (some r, u.2) else (Option.none, db)

/-- Model of `update_heartbeat`: SET `heartbeat = now` WHERE
`id = pair_id AND instance_id = inst AND status = 'in_progress'`. -/
def update_heartbeat (inst : String) (now : Time) (pair_id : Nat) (db : DB) : DB :=
  db.map (fun r =>
    if decide (r.id = pair_id ∧ r.instance_id = some inst ∧ r.status = Status.in_progress) then
      { r with heartbeat := some now }
    else r)

/-- Batch heartbeat refresh done each tick of `heartbeat_worker`:
SET `heartbeat = now` WHERE `id IN (active) AND instance_id = inst AND
status = 'in_progress'`, skipped when the active set is empty. -/
def batch_update_heartbeats (inst : String) (active : List Nat) (now : Time) (db : DB) : DB :=
  if active.isEmpty then db
  else
    db.map (fun r =>
      if active.contains r.id &&
         decide (r.instance_id = some inst ∧ r.status = Status.in_progress) then
        { r with heartbeat := some now }
      else r)

/-- One tick of the `heartbeat_worker` loop body: refresh heartbeats of this
instance's active pairs, then `reset_stale_pairs(db_path, timeout_minutes=3)`. -/
def heartbeat_tick (inst : String) (active : List Nat) (now : Time) (db : DB) : DB :=
  (reset_stale_pairs (batch_update_heartbeats inst active now db) now 3).2

/-- Model of `update_status`: UPDATE SET `status='checked', decision, completed_at=now`
WHERE `id = pair_id AND instance_id = inst AND status = 'in_progress'`;
commit and return True on `rowcount = 1`, else roll back and return False.
Note the UPDATE leaves `started_at`, `instance_id` and `heartbeat` in place. -/
def update_status (inst : String) (now : Time) (pair_id : Nat) (d : Decision) (db : DB) :
    Bool × DB :=
  let hit := fun r : Row =>
    decide (r.id = pair_id ∧ r.instance_id = some inst ∧ r.status = Status.in_progress)
  if db.countP hit = 1 then
    (true,
     db.map (fun r =>
       if hit r then { r with status := Status.checked, decision := d, completed_at := some now }
       else r))
  else (false, db)

/-- Model of `release_pair`: UPDATE SET `status='awaiting', started_at=NULL,
instance_id=NULL, heartbeat=NULL` WHERE `id = pair_id AND instance_id = inst
AND status = 'in_progress'`; commit and return True on `rowcount = 1`, else
roll back and return False. -/
def release_pair (inst : String) (pair_id : Nat) (db : DB) : Bool × DB :=
  let hit := fun r : Row =>
    decide (r.id = pair_id ∧ r.instance_id = some inst ∧ r.status = Status.in_progress)
  if db.countP hit = 1 then
    (true,
     db.map (fun r =>
       if hit r then
         { r with status := Status.awaiting, started_at := Option.none,
                  instance_id := Option.none, heartbeat := Option.none }
       else r))
  else (false, db)

/-- Number of rows WHERE `status = 'awaiting'`. -/
def numAwaiting (db : DB) : Nat :=
  db.countP (fun r => decide (r.status = Status.awaiting))

/-- A sequence of atomic `get_next_pair_atomic` calls, each tagged with the
calling instance and its clock reading, run against the shared table in
order; returns each call's result and the final table. -/
def runClaims : List (String × Time) → DB → List (Option Row) × DB
  | [], db => ([], db)
  | c :: rest, db =>
    let step := get_next_pair_atomic c.1 c.2 db
    let next := runClaims rest step.2
    (step.1 :: next.1, next.2)

/-- The ids granted (returned successfully) across a run of claim calls. -/
def grantedIds (calls : List (String × Time)) (db : DB) : List Nat :=
  (runClaims calls db).1.filterMap (Option.map Row.id)

/-- One atomic operation of the store, as invoked by the scripts: batch
insert, claim, single or batch heartbeat refresh, decision submit, release,
decision fetch, stale-lease sweep, or startup reset of this instance's rows. -/
inductive Step : DB → DB → Prop where
  | insert (pairs : List PairInput) (db : DB) : Step db (add_image_pairs pairs db).2
  | claim (inst : String) (now : Time) (db : DB) : Step db (get_next_pair_atomic inst now db).2
  | heartbeat (inst : String) (now : Time) (pid : Nat) (db : DB) :
      Step db (update_heartbeat inst now pid db)
  | heartbeatBatch (inst : String) (active : List Nat) (now : Time) (db : DB) :
      Step db (batch_update_heartbeats inst active now db)
  | submit (inst : String) (now : Time) (pid : Nat) (d : Decision) (db : DB) :
      Step db (update_status inst now pid d db).2
  | release (inst : String) (pid : Nat) (db : DB) : Step db (release_pair inst pid db).2
  | fetch (ids : List Nat) (db : DB) : Step db (get_decisions ids db).2
  | resetStale (now : Time) (tm : Int) (db : DB) : Step db (reset_stale_pairs db now tm).2
  | resetInstance (inst : String) (db : DB) : Step db (reset_instance_pairs inst db).2

/-- States of the table reachable from an empty table by the store's
operations. -/
inductive Reachable : DB → Prop where
  | init : Reachable []
  | step {db db' : DB} : Reachable db → Step db db' → Reachable db'

/-! ### Generic lemmas about row lookup, map-style UPDATEs and counting -/

/-- A row id is awaiting in the table. -/
def isAwaitingId (db : DB) (i : Nat) : Prop :=
  ∃ r ∈ db, r.id = i ∧ r.status = Status.awaiting

theorem findRow_mem {db : DB} {i : Nat} {r : Row} (h : findRow db i = some r) :
    r ∈ db ∧ r.id = i := by
  refine ⟨List.mem_of_find?_eq_some h, ?_⟩
  have := List.find?_some h
  simpa using this

theorem findRow_map (g : Row → Row) (hg : ∀ r, (g r).id = r.id) (db : DB) (i : Nat) :
    findRow (db.map g) i = (findRow db i).map g := by
  unfold findRow
  rw [List.find?_map]
  have hfun : ((fun r : Row => decide (r.id = i)) ∘ g) = (fun r : Row => decide (r.id = i)) := by
    funext r
    simp [Function.comp, hg]
  rw [hfun]

theorem WF_map (g : Row → Row) (hg : ∀ r, (g r).id = r.id) {db : DB} (h : WF db) :
    WF (db.map g) := by
  unfold WF at h ⊢
  rw [List.map_map]
  have hfun : (Row.id ∘ g) = Row.id := funext hg
  rwa [hfun]

theorem findRow_eq_some_of_mem {db : DB} (h : WF db) {r : Row} (hr : r ∈ db) :
    findRow db r.id = some r := by
  induction db with
  | nil => cases hr
  | cons a l ih =>
    have hnd := List.nodup_cons.mp h
    rcases List.mem_cons.mp hr with rfl | hmem
    · unfold findRow
      simp [List.find?]
    · have hne : ¬(a.id = r.id) := by
        intro he
        exact hnd.1 (he ▸ List.mem_map_of_mem Row.id hmem)
      have hWFl : WF l := hnd.2
      have hd : decide (a.id = r.id) = false := decide_eq_false hne
      unfold findRow at ih ⊢
      simp only [List.find?, hd]
      exact ih hWFl hmem

theorem rows_inj {db : DB} (h : WF db) {x y : Row} (hx : x ∈ db) (hy : y ∈ db)
    (hid : x.id = y.id) : x = y :=
  List.inj_on_of_nodup_map h hx hy hid

theorem countP_eq_one_of_unique {p : Row → Bool} {db : DB} {r : Row}
    (hnd : db.Nodup) (hr : r ∈ db) (hp : p r = true)
    (huniq : ∀ x ∈ db, p x = true → x = r) : db.countP p = 1 := by
  induction db with
  | nil => cases hr
  | cons a l ih =>
    have hnd' := List.nodup_cons.mp hnd
    rcases List.mem_cons.mp hr with rfl | hmem
    · have hzero : l.countP p = 0 := by
        rw [List.countP_eq_zero]
        intro x hx hpx
        have hxa := huniq x (List.mem_cons_of_mem _ hx) hpx
        exact hnd'.1 (hxa ▸ hx)
      simp [List.countP_cons, hp, hzero]
    · have hne : a ≠ r := fun he => hnd'.1 (he ▸ hmem)
      have hpa : ¬(p a = true) := fun hpa => hne (huniq a (List.mem_cons_self a l) hpa)
      have hrec := ih hnd'.2 hmem (fun x hx hpx => huniq x (List.mem_cons_of_mem _ hx) hpx)
      simp [List.countP_cons, hpa, hrec]

theorem countP_and_not_add {p q : Row → Bool} {db : DB}
    (h : ∀ x ∈ db, q x = true → p x = true) :
    db.countP (fun x => p x && !q x) + db.countP q = db.countP p := by
  induction db with
  | nil => simp
  | cons a l ih =>
    have ih' := ih (fun x hx => h x (List.mem_cons_of_mem _ hx))
    by_cases hqa : q a = true
    · have hpa := h a (List.mem_cons_self a l) hqa
      simp [List.countP_cons, hqa, hpa]
      omega
    · have hqa' : q a = false := by simpa using hqa
      by_cases hpa : p a = true
      · simp [List.countP_cons, hqa', hpa]
        omega
      · have hpa' : p a = false := by simpa using hpa
        simp [List.countP_cons, hqa', hpa']
        omega

theorem findRow_append_left {db ext : DB} {i : Nat} {r : Row}
    (h : findRow db i = some r) : findRow (db ++ ext) i = some r := by
  unfold findRow at h ⊢
  rw [List.find?_append, h]
  rfl

/-! ### Lemmas about the claim transaction -/

theorem selectNextAwaiting_eq_none {db : DB} :
    selectNextAwaiting db = Option.none ↔ numAwaiting db = 0 := by
  unfold selectNextAwaiting numAwaiting
  rw [List.argmin_eq_none, List.countP_eq_length_filter, List.length_eq_zero]

theorem selectNextAwaiting_mem {db : DB} {r : Row} (h : selectNextAwaiting db = some r) :
    r ∈ db ∧ r.status = Status.awaiting := by
  unfold selectNextAwaiting at h
  have hm : r ∈ db.filter (fun x => decide (x.status = Status.awaiting)) :=
    List.argmin_mem (show r ∈ _ from h)
  rw [List.mem_filter] at hm
  exact ⟨hm.1, by simpa using hm.2⟩

theorem selectNextAwaiting_min {db : DB} {r : Row} (h : selectNextAwaiting db = some r) :
    ∀ x ∈ db, x.status = Status.awaiting → r.id ≤ x.id := by
  intro x hx hst
  have hxf : x ∈ db.filter (fun y => decide (y.status = Status.awaiting)) := by
    rw [List.mem_filter]
    exact ⟨hx, by simpa using hst⟩
  exact List.le_of_mem_argmin hxf (show r ∈ _ from h)

theorem claimUpdate_count_one {inst : String} {now : Time} {db : DB} {r : Row}
    (hWF : WF db) (hr : r ∈ db) (hst : r.status = Status.awaiting) :
    (claimUpdate inst now r.id db).1 = 1 := by
  have hnd : db.Nodup := List.Nodup.of_map _ hWF
  unfold claimUpdate
  apply countP_eq_one_of_unique hnd hr
  · simp [hst]
  · intro x hx hpx
    simp only [decide_eq_true_eq] at hpx
    exact rows_inj hWF hx hr hpx.1

theorem get_next_none {inst : String} {now : Time} {db : DB} (h0 : numAwaiting db = 0) :
    get_next_pair_atomic inst now db = (Option.none, db) := by
  unfold get_next_pair_atomic
  rw [selectNextAwaiting_eq_none.mpr h0]

theorem get_next_success {inst : String} {now : Time} {db : DB} {r : Row}
    (hWF : WF db) (hsel : selectNextAwaiting db = some r) :
    get_next_pair_atomic inst now db = (some r, (claimUpdate inst now r.id db).2) := by
  have hmem := selectNextAwaiting_mem hsel
  have hc := @claimUpdate_count_one inst now db r hWF hmem.1 hmem.2
  unfold get_next_pair_atomic
  rw [hsel]
  simp [hc]

theorem get_next_cases {inst : String} {now : Time} {db : DB} (hWF : WF db) :
    (numAwaiting db = 0 ∧ get_next_pair_atomic inst now db = (Option.none, db)) ∨
    (∃ r, selectNextAwaiting db = some r ∧
      get_next_pair_atomic inst now db = (some r, (claimUpdate inst now r.id db).2)) := by
  by_cases h0 : numAwaiting db = 0
  · exact Or.inl ⟨h0, get_next_none h0⟩
  · right
    have hne : selectNextAwaiting db ≠ Option.none :=
      fun hn => h0 (selectNextAwaiting_eq_none.mp hn)
    obtain ⟨r, hr⟩ := Option.ne_none_iff_exists'.mp hne
    exact ⟨r, hr, get_next_success hWF hr⟩

theorem claimUpdate_id_preserved (inst : String) (now : Time) (pid : Nat) :
    ∀ r : Row, ((fun x : Row =>
      if decide (x.id = pid ∧ x.status = Status.awaiting) then
        { x with status := Status.in_progress, started_at := some now,
                 instance_id := some inst, heartbeat := some now }
      else x) r).id = r.id := by
  intro r
  by_cases h : (r.id = pid ∧ r.status = Status.awaiting) <;> simp [h]

theorem claimUpdate_WF {inst : String} {now : Time} {pid : Nat} {db : DB} (hWF : WF db) :
    WF (claimUpdate inst now pid db).2 :=
  WF_map _ (claimUpdate_id_preserved inst now pid) hWF

theorem claimUpdate_awaiting_mono {inst : String} {now : Time} {pid : Nat} {db : DB} {i : Nat}
    (h : isAwaitingId (claimUpdate inst now pid db).2 i) : isAwaitingId db i := by
  obtain ⟨x', hx', hid, hst⟩ := h
  unfold claimUpdate at hx'
  simp only [List.mem_map] at hx'
  obtain ⟨x, hx, rfl⟩ := hx'
  by_cases hc : (x.id = pid ∧ x.status = Status.awaiting)
  · simp [hc] at hst
  · exact ⟨x, hx, by simpa [hc] using hid, by simpa [hc] using hst⟩

theorem claimUpdate_not_awaiting {inst : String} {now : Time} {db : DB} (pid : Nat) :
    ¬ isAwaitingId (claimUpdate inst now pid db).2 pid := by
  rintro ⟨x', hx', hid, hst'⟩
  unfold claimUpdate at hx'
  simp only [List.mem_map] at hx'
  obtain ⟨x, hx, rfl⟩ := hx'
  by_cases hc : (x.id = pid ∧ x.status = Status.awaiting)
  · simp [hc] at hst'
  · have hxid : x.id = pid := by simpa [hc] using hid
    have hxst : x.status = Status.awaiting := by simpa [hc] using hst'
    exact hc ⟨hxid, hxst⟩

theorem claimUpdate_numAwaiting {inst : String} {now : Time} {db : DB} {r : Row}
    (hWF : WF db) (hr : r ∈ db) (hst : r.status = Status.awaiting) :
    numAwaiting (claimUpdate inst now r.id db).2 + 1 = numAwaiting db := by
  have hcount := @claimUpdate_count_one inst now db r hWF hr hst
  unfold claimUpdate at hcount ⊢
  unfold numAwaiting
  rw [List.countP_map]
  have hcongr : ∀ x ∈ db,
      ((fun y : Row => decide (y.status = Status.awaiting)) ∘ (fun y : Row =>
        if decide (y.id = r.id ∧ y.status = Status.awaiting) then
          { y with status := Status.in_progress, started_at := some now,
                   instance_id := some inst, heartbeat := some now }
        else y)) x = true ↔
      ((fun y : Row => decide (y.status = Status.awaiting)) x &&
        !(fun y : Row => decide (y.id = r.id ∧ y.status = Status.awaiting)) x) = true := by
    intro x hx
    by_cases hc : (x.id = r.id ∧ x.status = Status.awaiting) <;>
      simp [Function.comp, hc]
  rw [List.countP_congr hcongr]
  have hsub := @countP_and_not_add
    (fun y : Row => decide (y.status = Status.awaiting))
    (fun y : Row => decide (y.id = r.id ∧ y.status = Status.awaiting)) db
    (fun x hx hq => by
      simp only [decide_eq_true_eq] at hq ⊢
      exact hq.2)
  simp only at hcount hsub ⊢
  omega

/-! ### C1: mutual exclusion across any interleaving of atomic claims -/

theorem runClaims_cons (c : String × Time) (rest : List (String × Time)) (db : DB) :
    runClaims (c :: rest) db =
      ((get_next_pair_atomic c.1 c.2 db).1 ::
         (runClaims rest (get_next_pair_atomic c.1 c.2 db).2).1,
       (runClaims rest (get_next_pair_atomic c.1 c.2 db).2).2) := rfl

theorem runClaims_aux (calls : List (String × Time)) :
    ∀ db : DB, WF db →
      (grantedIds calls db).Nodup ∧
      (∀ i ∈ grantedIds calls db, isAwaitingId db i) ∧
      (numAwaiting db ≤ calls.length → (grantedIds calls db).length = numAwaiting db) := by
  induction calls with
  | nil =>
    intro db hWF
    refine ⟨List.nodup_nil, ?_, ?_⟩
    · intro i hi
      simp [grantedIds, runClaims] at hi
    · intro h
      simp only [List.length_nil, Nat.le_zero] at h
      simp [grantedIds, runClaims, h]
  | cons c rest ih =>
    intro db hWF
    rcases @get_next_cases c.1 c.2 db hWF with ⟨h0, heq⟩ | ⟨r, hsel, heq⟩
    · have hg : grantedIds (c :: rest) db = grantedIds rest db := by
        unfold grantedIds
        rw [runClaims_cons, heq]
        rfl
      obtain ⟨ihn, ihaw, ihlen⟩ := ih db hWF
      rw [hg]
      refine ⟨ihn, ihaw, ?_⟩
      intro _
      rw [ihlen (by omega)]
    · have hmem := selectNextAwaiting_mem hsel
      have hWF' : WF (claimUpdate c.1 c.2 r.id db).2 := claimUpdate_WF hWF
      obtain ⟨ihn, ihaw, ihlen⟩ := ih _ hWF'
      have hdec := @claimUpdate_numAwaiting c.1 c.2 db r hWF hmem.1 hmem.2
      have hg : grantedIds (c :: rest) db =
          r.id :: grantedIds rest (claimUpdate c.1 c.2 r.id db).2 := by
        unfold grantedIds
        rw [runClaims_cons, heq]
        rfl
      rw [hg]
      refine ⟨?_, ?_, ?_⟩
      · rw [List.nodup_cons]
        exact ⟨fun hin => claimUpdate_not_awaiting r.id (ihaw _ hin), ihn⟩
      · intro i hi
        rcases List.mem_cons.mp hi with rfl | hi'
        · exact ⟨r, hmem.1, rfl, hmem.2⟩
        · exact claimUpdate_awaiting_mono (ihaw i hi')
      · intro hlen
        simp only [List.length_cons] at hlen
        have hle : numAwaiting (claimUpdate c.1 c.2 r.id db).2 ≤ rest.length := by omega
        rw [List.length_cons, ihlen hle]
        omega

/-- C1: in any interleaving of atomic `get_next_pair_atomic` calls by any set
of instances, with no intervening release, reclaim or submit, each task id is
granted to at most one caller (the granted ids are pairwise distinct); and
with `N` tasks awaiting and `M ≥ N` calls, exactly `N` calls succeed,
returning `N` distinct task ids. -/
theorem claim_mutual_exclusion (calls : List (String × Time)) (db : DB) (hWF : WF db) :
    (grantedIds calls db).Nodup ∧
    (numAwaiting db ≤ calls.length → (grantedIds calls db).length = numAwaiting db) := by
  obtain ⟨h1, _, h3⟩ := runClaims_aux calls db hWF
  exact ⟨h1, h3⟩

/-- Sample inputs used by the concrete witnesses below. -/
def pairA : PairInput := ⟨1, "uA", "imgA1", "bA1", "cA1", "uB", "imgA2", "bA2", "cA2"⟩

def pairB : PairInput := ⟨2, "uC", "imgB1", "bB1", "cB1", "uD", "imgB2", "bB2", "cB2"⟩

def sampleDB : DB := (add_image_pairs [pairA, pairB] []).2

def claimCalls : List (String × Time) := [("A", 0), ("B", 0), ("A", 5)]

theorem claim_mutual_exclusion_witness :
    (grantedIds claimCalls sampleDB).Nodup ∧
    (numAwaiting sampleDB ≤ claimCalls.length →
      (grantedIds claimCalls sampleDB).length = numAwaiting sampleDB) :=
  claim_mutual_exclusion claimCalls sampleDB (by unfold WF; decide)

/-! ### C2: selection order, conditional update and rollback of the claim -/

theorem claimUpdate_findRow {inst : String} {now : Time} {pid : Nat} (db : DB) (i : Nat) :
    findRow (claimUpdate inst now pid db).2 i =
      (findRow db i).map (fun x =>
        if decide (x.id = pid ∧ x.status = Status.awaiting) then
          { x with status := Status.in_progress, started_at := some now,
                   instance_id := some inst, heartbeat := some now }
        else x) := by
  unfold claimUpdate
  exact findRow_map _ (claimUpdate_id_preserved inst now pid) db i

/-- C2: `get_next_pair_atomic` selects the awaiting task with the smallest id;
it moves that task to `in_progress` with owner `inst` and
`started_at = heartbeat = now`, the conditional UPDATE matching a row only if
its status is still `awaiting`; an update matching zero rows leaves the table
unchanged (rollback), and when no awaiting task exists the call returns
`None` with the table unchanged rather than an error. -/
theorem get_next_pair_atomic_spec (inst : String) (now : Time) (db : DB) (hWF : WF db) :
    (∀ r db2, get_next_pair_atomic inst now db = (some r, db2) →
      r ∈ db ∧ r.status = Status.awaiting ∧
      (∀ x ∈ db, x.status = Status.awaiting → r.id ≤ x.id) ∧
      findRow db2 r.id = some { r with status := Status.in_progress, started_at := some now,
                                       instance_id := some inst, heartbeat := some now } ∧
      (∀ i, i ≠ r.id → findRow db2 i = findRow db i)) ∧
    (numAwaiting db = 0 → get_next_pair_atomic inst now db = (Option.none, db)) ∧
    (numAwaiting db ≠ 0 → ∃ r db2, get_next_pair_atomic inst now db = (some r, db2)) ∧
    (∀ pid, (∀ x ∈ db, ¬(x.id = pid ∧ x.status = Status.awaiting)) →
      claimUpdate inst now pid db = (0, db)) := by
  refine ⟨?_, fun h0 => get_next_none h0, ?_, ?_⟩
  · intro r db2 heq
    rcases @get_next_cases inst now db hWF with ⟨h0, heq0⟩ | ⟨r', hsel, heq'⟩
    · rw [heq0] at heq
      cases heq
    · have hpair := heq'.symm.trans heq
      have hrr : r' = r := by
        have := congrArg Prod.fst hpair
        simpa using this
      subst hrr
      have hdb2 : (claimUpdate inst now r'.id db).2 = db2 := congrArg Prod.snd hpair
      subst hdb2
      have hmem := selectNextAwaiting_mem hsel
      refine ⟨hmem.1, hmem.2, selectNextAwaiting_min hsel, ?_, ?_⟩
      · rw [claimUpdate_findRow, findRow_eq_some_of_mem hWF hmem.1]
        simp [hmem.2]
      · intro i hi
        rw [claimUpdate_findRow]
        cases hfi : findRow db i with
        | none => rfl
        | some x =>
          have hx := findRow_mem hfi
          have : ¬(x.id = r'.id ∧ x.status = Status.awaiting) := by
            rintro ⟨hxe, -⟩
            exact hi (hx.2 ▸ hxe)
          simp [this]
  · intro hne
    rcases @get_next_cases inst now db hWF with ⟨h0, -⟩ | ⟨r, -, heq'⟩
    · exact absurd h0 hne
    · exact ⟨r, _, heq'⟩
  · intro pid hno
    unfold claimUpdate
    have hc : db.countP (fun x => decide (x.id = pid ∧ x.status = Status.awaiting)) = 0 := by
      rw [List.countP_eq_zero]
      intro x hx
      simp only [decide_eq_true_eq]
      exact hno x hx
    have hm : db.map (fun x =>
        if decide (x.id = pid ∧ x.status = Status.awaiting) then
          { x with status := Status.in_progress, started_at := some now,
                   instance_id := some inst, heartbeat := some now }
        else x) = db := by
      have hpt : ∀ x ∈ db, (if decide (x.id = pid ∧ x.status = Status.awaiting) then
          { x with status := Status.in_progress, started_at := some now,
                   instance_id := some inst, heartbeat := some now }
        else x) = x := by
        intro x hx
        simp [hno x hx]
      rw [List.map_congr_left hpt]
      exact List.map_id' db
    rw [hc, hm]

theorem get_next_pair_atomic_spec_witness :
    ∃ r db2, get_next_pair_atomic "A" 7 sampleDB = (some r, db2) :=
  (get_next_pair_atomic_spec "A" 7 sampleDB (by unfold WF; decide)).2.2.1 (by decide)

/-! ### C3: nullability of owner, started_at and heartbeat -/

/-- Per-row nullability condition that actually holds on reachable tables:
`instance_id`, `started_at` and `heartbeat` are non-NULL exactly when the
status is not `awaiting`. -/
def populatedOK (r : Row) : Prop :=
  (r.instance_id ≠ Option.none ↔ r.status ≠ Status.awaiting) ∧
  (r.started_at ≠ Option.none ↔ r.status ≠ Status.awaiting) ∧
  (r.heartbeat ≠ Option.none ↔ r.status ≠ Status.awaiting)

/-- The table-wide invariant. -/
def populatedInv (db : DB) : Prop := ∀ r ∈ db, populatedOK r

theorem populatedInv_map {g : Row → Row} {db : DB}
    (hg : ∀ r ∈ db, populatedOK r → populatedOK (g r)) (h : populatedInv db) :
    populatedInv (db.map g) := by
  intro r' hr'
  rw [List.mem_map] at hr'
  obtain ⟨r, hr, rfl⟩ := hr'
  exact hg r hr (h r hr)

theorem add_image_pairs_mem : ∀ (pairs : List PairInput) (db : DB) (r : Row),
    r ∈ (add_image_pairs pairs db).2 → r ∈ db ∨ ∃ p ∈ pairs, r = newRow p := by
  intro pairs
  induction pairs with
  | nil => exact fun db r hr => Or.inl hr
  | cons p rest ih =>
    intro db r hr
    unfold add_image_pairs at hr
    by_cases hdup : db.any (fun x => decide (x.id = p.id)) = true
    · rw [if_pos hdup] at hr
      rcases ih db r hr with h | ⟨q, hq, hrq⟩
      · exact Or.inl h
      · exact Or.inr ⟨q, List.mem_cons_of_mem _ hq, hrq⟩
    · rw [if_neg hdup] at hr
      rcases ih (db ++ [newRow p]) r hr with h | ⟨q, hq, hrq⟩
      · rcases List.mem_append.mp h with h' | h'
        · exact Or.inl h'
        · exact Or.inr ⟨p, List.mem_cons_self p rest, by simpa using h'⟩
      · exact Or.inr ⟨q, List.mem_cons_of_mem _ hq, hrq⟩

theorem populatedOK_newRow (p : PairInput) : populatedOK (newRow p) := by
  simp [populatedOK, newRow]

theorem populatedInv_insert {pairs : List PairInput} {db : DB} (h : populatedInv db) :
    populatedInv (add_image_pairs pairs db).2 := by
  intro r hr
  rcases add_image_pairs_mem pairs db r hr with hmem | ⟨p, -, rfl⟩
  · exact h r hmem
  · exact populatedOK_newRow p

theorem populatedInv_claimUpdate {inst : String} {now : Time} {pid : Nat} {db : DB}
    (h : populatedInv db) : populatedInv (claimUpdate inst now pid db).2 := by
  unfold claimUpdate
  refine populatedInv_map ?_ h
  intro r hr hro
  by_cases hc : (r.id = pid ∧ r.status = Status.awaiting)
  · simp [populatedOK, hc]
  · simpa [hc] using hro

theorem populatedInv_get_next {inst : String} {now : Time} {db : DB} (h : populatedInv db) :
    populatedInv (get_next_pair_atomic inst now db).2 := by
  unfold get_next_pair_atomic
  cases hsel : selectNextAwaiting db with
  | none => exact h
  | some r =>
    by_cases hc : (claimUpdate inst now r.id db).1 = 1
    · simpa [hc] using @populatedInv_claimUpdate inst now r.id db h
    · simpa [hc] using h

theorem populatedInv_heartbeat {inst : String} {now : Time} {pid : Nat} {db : DB}
    (h : populatedInv db) : populatedInv (update_heartbeat inst now pid db) := by
  unfold update_heartbeat
  refine populatedInv_map ?_ h
  intro r hr hro
  by_cases hc : (r.id = pid ∧ r.instance_id = some inst ∧ r.status = Status.in_progress)
  · obtain ⟨h1, h2, h3⟩ := hro
    simp only [populatedOK, hc, decide_eq_true_eq, if_true, hc.2.2] at h1 h2 ⊢
    simp_all
  · simpa [hc] using hro

theorem populatedInv_heartbeatBatch {inst : String} {active : List Nat} {now : Time} {db : DB}
    (h : populatedInv db) : populatedInv (batch_update_heartbeats inst active now db) := by
  unfold batch_update_heartbeats
  by_cases he : active.isEmpty
  · simpa [he] using h
  · rw [if_neg he]
    refine populatedInv_map ?_ h
    intro r hr hro
    by_cases hc : (active.contains r.id &&
        decide (r.instance_id = some inst ∧ r.status = Status.in_progress)) = true
    · rw [if_pos hc]
      have hst : r.status = Status.in_progress := by
        simp only [Bool.and_eq_true, decide_eq_true_eq] at hc
        exact hc.2.2
      unfold populatedOK at hro ⊢
      obtain ⟨h1, h2, h3⟩ := hro
      exact ⟨h1, h2, by simp [hst]⟩
    · rw [if_neg hc]
      exact hro

theorem populatedInv_submit {inst : String} {now : Time} {pid : Nat} {d : Decision} {db : DB}
    (h : populatedInv db) : populatedInv (update_status inst now pid d db).2 := by
  unfold update_status
  by_cases hcount : db.countP (fun r =>
      decide (r.id = pid ∧ r.instance_id = some inst ∧ r.status = Status.in_progress)) = 1
  · rw [if_pos hcount]
    refine populatedInv_map ?_ h
    intro r hr hro
    by_cases hc : (r.id = pid ∧ r.instance_id = some inst ∧ r.status = Status.in_progress)
    · obtain ⟨h1, h2, h3⟩ := hro
      simp only [hc.2.2] at h1 h2 h3
      simp [populatedOK, hc, h1, h2, h3]
    · simpa [hc] using hro
  · rw [if_neg hcount]
    exact h

theorem populatedInv_release {inst : String} {pid : Nat} {db : DB}
    (h : populatedInv db) : populatedInv (release_pair inst pid db).2 := by
  unfold release_pair
  by_cases hcount : db.countP (fun r =>
      decide (r.id = pid ∧ r.instance_id = some inst ∧ r.status = Status.in_progress)) = 1
  · rw [if_pos hcount]
    refine populatedInv_map ?_ h
    intro r hr hro
    by_cases hc : (r.id = pid ∧ r.instance_id = some inst ∧ r.status = Status.in_progress)
    · simp [populatedOK, hc]
    · simpa [hc] using hro
  · rw [if_neg hcount]
    exact h

theorem populatedInv_fetch {ids : List Nat} {db : DB}
    (h : populatedInv db) : populatedInv (get_decisions ids db).2 := by
  unfold get_decisions
  by_cases he : ids.isEmpty
  · simpa [he] using h
  · rw [if_neg he]
    by_cases hres : ((db.filter (decisionHit ids)).map (fun r => (r.id, r.decision))).isEmpty
    · simpa [hres] using h
    · rw [if_neg hres]
      refine populatedInv_map ?_ h
      intro r hr hro
      by_cases hc : decisionHit ids r = true
      · have hst : r.status = Status.checked := by
          unfold decisionHit at hc
          simp only [Bool.and_eq_true, decide_eq_true_eq] at hc
          exact hc.2
        obtain ⟨h1, h2, h3⟩ := hro
        simp only [hst] at h1 h2 h3
        simp [populatedOK, hc, h1, h2, h3]
      · have hc' : decisionHit ids r = false := by simpa using hc
        simpa [hc'] using hro

theorem populatedInv_resetStale {now : Time} {tm : Int} {db : DB}
    (h : populatedInv db) : populatedInv (reset_stale_pairs db now tm).2 := by
  unfold reset_stale_pairs
  refine populatedInv_map ?_ h
  intro r hr hro
  by_cases hc : staleHit now tm r = true
  · simp [populatedOK, hc]
  · have hc' : staleHit now tm r = false := by simpa using hc
    simpa [hc'] using hro

theorem populatedInv_resetInstance {inst : String} {db : DB}
    (h : populatedInv db) : populatedInv (reset_instance_pairs inst db).2 := by
  unfold reset_instance_pairs
  refine populatedInv_map ?_ h
  intro r hr hro
  by_cases hc : (r.status = Status.in_progress ∧ r.instance_id = some inst)
  · simp [populatedOK, hc]
  · simpa [hc] using hro

theorem populatedInv_step {db db' : DB} (hs : Step db db') (h : populatedInv db) :
    populatedInv db' := by
  cases hs with
  | insert pairs db => exact populatedInv_insert h
  | claim inst now db => exact populatedInv_get_next h
  | heartbeat inst now pid db => exact populatedInv_heartbeat h
  | heartbeatBatch inst active now db => exact populatedInv_heartbeatBatch h
  | submit inst now pid d db => exact populatedInv_submit h
  | release inst pid db => exact populatedInv_release h
  | fetch ids db => exact populatedInv_fetch h
  | resetStale now tm db => exact populatedInv_resetStale h
  | resetInstance inst db => exact populatedInv_resetInstance h

theorem populatedInv_reachable {db : DB} (h : Reachable db) : populatedInv db := by
  induction h with
  | init => intro r hr; cases hr
  | step _ hs ih => exact populatedInv_step hs ih

/-- Intermediate tables used by the C3 witnesses: claim task 1 on the sample
table, then submit a decision for it. -/
def claimedDB : DB := (get_next_pair_atomic "A" 0 sampleDB).2

def checkedDB : DB := (update_status "A" 1 1 Decision.correct claimedDB).2

/-- C3 counterexample: the claimed invariant "owner/started_at/heartbeat are
non-null iff status = in_progress" fails on a reachable table: `update_status`
moves a task to `checked` without clearing `instance_id`, `started_at` or
`heartbeat`. -/
theorem owner_nonnull_iff_in_progress_false :
    ¬ (∀ db : DB, Reachable db → ∀ r ∈ db,
        ((r.instance_id ≠ Option.none ∧ r.started_at ≠ Option.none ∧
          r.heartbeat ≠ Option.none) ↔ r.status = Status.in_progress)) := by
  intro h
  have hre : Reachable checkedDB :=
    Reachable.step
      (Reachable.step
        (Reachable.step Reachable.init (Step.insert [pairA, pairB] []))
        (Step.claim "A" 0 sampleDB))
      (Step.submit "A" 1 1 Decision.correct claimedDB)
  exact absurd (h checkedDB hre) (by decide)

/-- C3 (amended): on every reachable table, a task's `instance_id`,
`started_at` and `heartbeat` are non-null iff its status is not `awaiting`
(i.e. `in_progress`, `checked` or `sent`): claiming populates them, release
and the reclaim paths clear them, but submit and fetch leave them in place on
`checked` and `sent` rows. -/
theorem owner_nonnull_iff_not_awaiting {db : DB} (h : Reachable db) {r : Row} (hr : r ∈ db) :
    (r.instance_id ≠ Option.none ↔ r.status ≠ Status.awaiting) ∧
    (r.started_at ≠ Option.none ↔ r.status ≠ Status.awaiting) ∧
    (r.heartbeat ≠ Option.none ↔ r.status ≠ Status.awaiting) :=
  populatedInv_reachable h r hr

/-- The concrete row that task 1 becomes in `checkedDB`. -/
def checkedRow : Row :=
  { id := 1, uuid1 := "uA", image1_path := "imgA1", bbox1 := "bA1", cluster1 := "cA1",
    uuid2 := "uB", image2_path := "imgA2", bbox2 := "bA2", cluster2 := "cA2",
    status := Status.checked, decision := Decision.correct,
    started_at := some 0, completed_at := some 1,
    instance_id := some "A", heartbeat := some 0 }

theorem owner_nonnull_iff_not_awaiting_witness :
    (checkedRow.instance_id ≠ Option.none ↔ checkedRow.status ≠ Status.awaiting) ∧
    (checkedRow.started_at ≠ Option.none ↔ checkedRow.status ≠ Status.awaiting) ∧
    (checkedRow.heartbeat ≠ Option.none ↔ checkedRow.status ≠ Status.awaiting) :=
  owner_nonnull_iff_not_awaiting
    (Reachable.step
      (Reachable.step
        (Reachable.step Reachable.init (Step.insert [pairA, pairB] []))
        (Step.claim "A" 0 sampleDB))
      (Step.submit "A" 1 1 Decision.correct claimedDB))
    (by decide)

/-! ### C4 and C7: owner-gated submit and release -/

theorem owned_count_one {inst : String} {pid : Nat} {db : DB} {r : Row} (hWF : WF db)
    (hfind : findRow db pid = some r) (hown : r.instance_id = some inst)
    (hst : r.status = Status.in_progress) :
    db.countP (fun x =>
      decide (x.id = pid ∧ x.instance_id = some inst ∧ x.status = Status.in_progress)) = 1 := by
  obtain ⟨hrmem, hrid⟩ := findRow_mem hfind
  apply countP_eq_one_of_unique (List.Nodup.of_map _ hWF) hrmem
  · simp [hrid, hown, hst]
  · intro x hx hpx
    simp only [decide_eq_true_eq] at hpx
    exact rows_inj hWF hx hrmem (by rw [hpx.1, hrid])

theorem owned_count_zero {inst : String} {pid : Nat} {db : DB}
    (hno : ∀ x ∈ db, ¬(x.id = pid ∧ x.instance_id = some inst ∧
      x.status = Status.in_progress)) :
    db.countP (fun x =>
      decide (x.id = pid ∧ x.instance_id = some inst ∧ x.status = Status.in_progress)) = 0 := by
  rw [List.countP_eq_zero]
  intro x hx
  simp only [decide_eq_true_eq]
  exact hno x hx

theorem submit_id_preserved (inst : String) (now : Time) (pid : Nat) (d : Decision) :
    ∀ r : Row, ((fun x : Row =>
      if decide (x.id = pid ∧ x.instance_id = some inst ∧ x.status = Status.in_progress) then
        { x with status := Status.checked, decision := d, completed_at := some now }
      else x) r).id = r.id := by
  intro r
  by_cases h : (r.id = pid ∧ r.instance_id = some inst ∧ r.status = Status.in_progress) <;>
    simp [h]

theorem release_id_preserved (inst : String) (pid : Nat) :
    ∀ r : Row, ((fun x : Row =>
      if decide (x.id = pid ∧ x.instance_id = some inst ∧ x.status = Status.in_progress) then
        { x with status := Status.awaiting, started_at := Option.none,
                 instance_id := Option.none, heartbeat := Option.none }
      else x) r).id = r.id := by
  intro r
  by_cases h : (r.id = pid ∧ r.instance_id = some inst ∧ r.status = Status.in_progress) <;>
    simp [h]

/-- C4: `update_status` moves a task from `in_progress` to `checked`,
recording the decision and `completed_at = now`, exactly when the task is
currently `in_progress` and owned by this instance; when ownership does not
match it returns `False` and leaves the table entirely unchanged. -/
theorem update_status_spec (inst : String) (now : Time) (pid : Nat) (d : Decision)
    (db : DB) (hWF : WF db) :
    (∀ r, findRow db pid = some r → r.instance_id = some inst →
      r.status = Status.in_progress →
      (update_status inst now pid d db).1 = true ∧
      findRow (update_status inst now pid d db).2 pid =
        some { r with status := Status.checked, decision := d, completed_at := some now } ∧
      (∀ i, i ≠ pid → findRow (update_status inst now pid d db).2 i = findRow db i)) ∧
    ((update_status inst now pid d db).1 = true →
      ∃ r, findRow db pid = some r ∧ r.instance_id = some inst ∧
        r.status = Status.in_progress) ∧
    ((∀ x ∈ db, ¬(x.id = pid ∧ x.instance_id = some inst ∧
        x.status = Status.in_progress)) →
      update_status inst now pid d db = (false, db)) := by
  refine ⟨?_, ?_, ?_⟩
  · intro r hfind hown hst
    have hcount := owned_count_one hWF hfind hown hst
    have hrid := (findRow_mem hfind).2
    have heq : update_status inst now pid d db =
        (true, db.map (fun x =>
          if decide (x.id = pid ∧ x.instance_id = some inst ∧
              x.status = Status.in_progress) then
            { x with status := Status.checked, decision := d, completed_at := some now }
          else x)) := by
      unfold update_status
      rw [if_pos hcount]
    rw [heq]
    refine ⟨rfl, ?_, ?_⟩
    · rw [findRow_map _ (submit_id_preserved inst now pid d), ← hrid,
        findRow_eq_some_of_mem hWF (findRow_mem hfind).1]
      simp [hrid, hown, hst]
    · intro i hi
      rw [findRow_map _ (submit_id_preserved inst now pid d)]
      cases hfi : findRow db i with
      | none => rfl
      | some x =>
        have hx := findRow_mem hfi
        have hnc : ¬(x.id = pid ∧ x.instance_id = some inst ∧
            x.status = Status.in_progress) := by
          rintro ⟨hxe, -, -⟩
          exact hi (hx.2 ▸ hxe)
        simp [hnc]
  · intro htrue
    unfold update_status at htrue
    by_cases hcount : db.countP (fun x =>
        decide (x.id = pid ∧ x.instance_id = some inst ∧
          x.status = Status.in_progress)) = 1
    · have hpos : 0 < db.countP (fun x =>
          decide (x.id = pid ∧ x.instance_id = some inst ∧
            x.status = Status.in_progress)) := by omega
      obtain ⟨x, hx, hpx⟩ := List.countP_pos_iff.mp hpos
      simp only [decide_eq_true_eq] at hpx
      refine ⟨x, ?_, hpx.2.1, hpx.2.2⟩
      rw [← hpx.1]
      exact findRow_eq_some_of_mem hWF hx
    · rw [if_neg hcount] at htrue
      cases htrue
  · intro hno
    unfold update_status
    rw [if_neg (by rw [owned_count_zero hno]; omega)]

/-- C7: `release_pair` reverts a task from `in_progress` back to `awaiting`,
clearing owner, heartbeat and started_at, exactly when it is currently owned
by this instance, and returns `False` as a no-op otherwise; after a
successful release the task is immediately re-claimable via
`get_next_pair_atomic`, by any instance including the releasing one. -/
theorem release_pair_spec (inst : String) (pid : Nat) (db : DB) (hWF : WF db) :
    (∀ r, findRow db pid = some r → r.instance_id = some inst →
      r.status = Status.in_progress →
      (release_pair inst pid db).1 = true ∧
      findRow (release_pair inst pid db).2 pid =
        some { r with status := Status.awaiting, started_at := Option.none,
                      instance_id := Option.none, heartbeat := Option.none } ∧
      (∀ i, i ≠ pid → findRow (release_pair inst pid db).2 i = findRow db i) ∧
      (∀ inst2 now2, ∃ r2 db3,
        get_next_pair_atomic inst2 now2 (release_pair inst pid db).2 = (some r2, db3)) ∧
      (∀ inst2 now2,
        (∀ x ∈ (release_pair inst pid db).2, x.status = Status.awaiting → pid ≤ x.id) →
        ∃ r2 db3, get_next_pair_atomic inst2 now2 (release_pair inst pid db).2 =
            (some r2, db3) ∧ r2.id = pid)) ∧
    ((∀ x ∈ db, ¬(x.id = pid ∧ x.instance_id = some inst ∧
        x.status = Status.in_progress)) →
      release_pair inst pid db = (false, db)) := by
  constructor
  · intro r hfind hown hst
    have hcount := owned_count_one hWF hfind hown hst
    have hrid := (findRow_mem hfind).2
    have heq : release_pair inst pid db =
        (true, db.map (fun x =>
          if decide (x.id = pid ∧ x.instance_id = some inst ∧
              x.status = Status.in_progress) then
            { x with status := Status.awaiting, started_at := Option.none,
                     instance_id := Option.none, heartbeat := Option.none }
          else x)) := by
      unfold release_pair
      rw [if_pos hcount]
    have hWF2 : WF (release_pair inst pid db).2 := by
      rw [heq]
      exact WF_map _ (release_id_preserved inst pid) hWF
    have hfind2 : findRow (release_pair inst pid db).2 pid =
        some { r with status := Status.awaiting, started_at := Option.none,
                      instance_id := Option.none, heartbeat := Option.none } := by
      rw [heq, findRow_map _ (release_id_preserved inst pid), ← hrid,
        findRow_eq_some_of_mem hWF (findRow_mem hfind).1]
      simp [hrid, hown, hst]
    have hawait : numAwaiting (release_pair inst pid db).2 ≠ 0 := by
      have hmem2 := (findRow_mem hfind2).1
      have hpos : 0 < numAwaiting (release_pair inst pid db).2 := by
        unfold numAwaiting
        exact List.countP_pos_iff.mpr ⟨_, hmem2, by simp⟩
      omega
    refine ⟨by rw [heq], hfind2, ?_, ?_, ?_⟩
    · intro i hi
      rw [heq, findRow_map _ (release_id_preserved inst pid)]
      cases hfi : findRow db i with
      | none => rfl
      | some x =>
        have hx := findRow_mem hfi
        have hnc : ¬(x.id = pid ∧ x.instance_id = some inst ∧
            x.status = Status.in_progress) := by
          rintro ⟨hxe, -, -⟩
          exact hi (hx.2 ▸ hxe)
        simp [hnc]
    · intro inst2 now2
      rcases @get_next_cases inst2 now2 (release_pair inst pid db).2 hWF2 with ⟨h0, -⟩ | ⟨r2, -, heq2⟩
      · exact absurd h0 hawait
      · exact ⟨r2, _, heq2⟩
    · intro inst2 now2 hmin
      rcases @get_next_cases inst2 now2 (release_pair inst pid db).2 hWF2 with ⟨h0, -⟩ | ⟨r2, hsel2, heq2⟩
      · exact absurd h0 hawait
      · refine ⟨r2, _, heq2, ?_⟩
        have hr2 := selectNextAwaiting_mem hsel2
        have hle : r2.id ≤ pid := by
          have := selectNextAwaiting_min hsel2 _ (findRow_mem hfind2).1 (by simp)
          simpa [hrid] using this
        have hge : pid ≤ r2.id := hmin r2 hr2.1 hr2.2
        omega
  · intro hno
    unfold release_pair
    rw [if_neg (by rw [owned_count_zero hno]; omega)]

/-- The concrete row that task 1 is in `claimedDB`. -/
def claimedRow : Row :=
  { id := 1, uuid1 := "uA", image1_path := "imgA1", bbox1 := "bA1", cluster1 := "cA1",
    uuid2 := "uB", image2_path := "imgA2", bbox2 := "bA2", cluster2 := "cA2",
    status := Status.in_progress, decision := Decision.none,
    started_at := some 0, completed_at := Option.none,
    instance_id := some "A", heartbeat := some 0 }

theorem update_status_spec_witness :
    (update_status "A" 1 1 Decision.correct claimedDB).1 = true ∧
    findRow (update_status "A" 1 1 Decision.correct claimedDB).2 1 =
      some { claimedRow with status := Status.checked, decision := Decision.correct,
                             completed_at := some 1 } := by
  have h := (update_status_spec "A" 1 1 Decision.correct claimedDB
    (by unfold WF; decide)).1 claimedRow (by decide) (by decide) (by decide)
  exact ⟨h.1, h.2.1⟩

theorem release_pair_spec_witness :
    (release_pair "A" 1 claimedDB).1 = true ∧
    (get_next_pair_atomic "B" 9 (release_pair "A" 1 claimedDB).2).1.isSome = true := by
  have h := (release_pair_spec "A" 1 claimedDB (by unfold WF; decide)).1 claimedRow
    (by decide) (by decide) (by decide)
  refine ⟨h.1, ?_⟩
  obtain ⟨r2, db3, heq2⟩ := h.2.2.2.1 "B" 9
  rw [heq2]
  rfl

/-! ### C5: at-most-once delivery of checked decisions -/

theorem get_decisions_fst (ids : List Nat) (db : DB) :
    (get_decisions ids db).1 =
      (db.filter (decisionHit ids)).map (fun r => (r.id, r.decision)) := by
  unfold get_decisions
  by_cases he : ids.isEmpty
  · rw [if_pos he]
    have hids : ids = [] := List.isEmpty_iff.mp he
    subst hids
    have hf : db.filter (decisionHit []) = [] := by
      rw [List.filter_eq_nil_iff]
      intro a ha
      simp [decisionHit]
    rw [hf]
    rfl
  · rw [if_neg he]
    dsimp only
    split <;> rfl

theorem get_decisions_snd (ids : List Nat) (db : DB) :
    (get_decisions ids db).2 =
      db.map (fun r => if decisionHit ids r then { r with status := Status.sent } else r) := by
  unfold get_decisions
  by_cases he : ids.isEmpty
  · rw [if_pos he]
    have hids : ids = [] := List.isEmpty_iff.mp he
    subst hids
    have hpt : ∀ r ∈ db,
        (if decisionHit [] r then { r with status := Status.sent } else r) = r := by
      intro r hr
      simp [decisionHit]
    rw [List.map_congr_left hpt]
    exact (List.map_id' db).symm
  · rw [if_neg he]
    dsimp only
    by_cases hres : ((db.filter (decisionHit ids)).map
        (fun r => (r.id, r.decision))).isEmpty
    · rw [if_pos hres]
      have hfilter : db.filter (decisionHit ids) = [] := by
        have hmap := List.isEmpty_iff.mp hres
        exact List.map_eq_nil_iff.mp hmap
      have hnone : ∀ r ∈ db, decisionHit ids r = false := by
        intro r hr
        by_contra hb
        have hmemf : r ∈ db.filter (decisionHit ids) :=
          List.mem_filter.mpr ⟨hr, by simpa using hb⟩
        rw [hfilter] at hmemf
        cases hmemf
      have hpt : ∀ r ∈ db,
          (if decisionHit ids r then { r with status := Status.sent } else r) = r := by
        intro r hr
        simp [hnone r hr]
      rw [List.map_congr_left hpt]
      exact (List.map_id' db).symm
    · rw [if_neg hres]

theorem decisionHit_after {ids : List Nat} {db : DB} :
    ∀ r ∈ (get_decisions ids db).2, decisionHit ids r = false := by
  intro r hr
  rw [get_decisions_snd, List.mem_map] at hr
  obtain ⟨x, hx, rfl⟩ := hr
  by_cases hc : decisionHit ids x = true
  · rw [if_pos hc]
    unfold decisionHit
    simp
  · have hc' : decisionHit ids x = false := by simpa using hc
    simp [hc']

/-- C5: `get_decisions` returns the id-to-decision mapping for exactly the
subset of the requested ids whose status is `checked` and flips those rows to
`sent` in the same call; ids not yet checked or already sent are simply
absent from the result; consequently a decision is delivered at most once —
calling `get_decisions` twice in a row with the same ids returns an empty
mapping the second time. -/
theorem get_decisions_spec (ids : List Nat) (db : DB) :
    (∀ i d, (i, d) ∈ (get_decisions ids db).1 ↔
      ∃ r ∈ db, r.id = i ∧ ids.contains i = true ∧
        r.status = Status.checked ∧ r.decision = d) ∧
    (∀ r ∈ db, ids.contains r.id = true → r.status = Status.checked →
      { r with status := Status.sent } ∈ (get_decisions ids db).2) ∧
    (∀ r ∈ db, ¬(ids.contains r.id = true ∧ r.status = Status.checked) →
      r ∈ (get_decisions ids db).2) ∧
    (get_decisions ids (get_decisions ids db).2).1 = [] := by
  refine ⟨?_, ?_, ?_, ?_⟩
  · intro i d
    rw [get_decisions_fst]
    constructor
    · intro hmem
      rw [List.mem_map] at hmem
      obtain ⟨x, hxf, hxe⟩ := hmem
      rw [List.mem_filter] at hxf
      obtain ⟨hx, hhit⟩ := hxf
      unfold decisionHit at hhit
      simp only [Bool.and_eq_true, decide_eq_true_eq] at hhit
      cases hxe
      exact ⟨x, hx, rfl, hhit.1, hhit.2, rfl⟩
    · rintro ⟨r, hr, hid, hcont, hst, hdec⟩
      rw [List.mem_map]
      refine ⟨r, List.mem_filter.mpr ⟨hr, ?_⟩, by rw [hid, hdec]⟩
      unfold decisionHit
      simp [hid, hst]
      simpa using hcont
  · intro r hr hcont hst
    rw [get_decisions_snd, List.mem_map]
    refine ⟨r, hr, ?_⟩
    have hhit : decisionHit ids r = true := by
      unfold decisionHit
      simp [hst]
      simpa using hcont
    rw [if_pos hhit]
  · intro r hr hno
    rw [get_decisions_snd, List.mem_map]
    refine ⟨r, hr, ?_⟩
    have hhit : decisionHit ids r = false := by
      unfold decisionHit
      by_contra hb
      simp only [Bool.not_eq_false, Bool.and_eq_true, decide_eq_true_eq] at hb
      exact hno ⟨hb.1, hb.2⟩
    rw [if_neg (by simp [hhit])]
  · rw [get_decisions_fst]
    have hfe : (get_decisions ids db).2.filter (decisionHit ids) = [] := by
      rw [List.filter_eq_nil_iff]
      intro a ha
      simp [decisionHit_after a ha]
    rw [hfe]
    rfl

theorem get_decisions_spec_witness :
    ({ checkedRow with status := Status.sent } ∈ (get_decisions [1, 2] checkedDB).2) ∧
    (get_decisions [1, 2] (get_decisions [1, 2] checkedDB).2).1 = [] :=
  ⟨(get_decisions_spec [1, 2] checkedDB).2.1 checkedRow (by decide) (by decide) (by decide),
   (get_decisions_spec [1, 2] checkedDB).2.2.2⟩

/-! ### C6 and C10: the stale-lease sweep and its thresholds -/

theorem staleHit_true {now : Time} {tm : Int} {r : Row}
    (hst : r.status = Status.in_progress)
    (hhb : r.heartbeat = Option.none ∨ ∃ hb, r.heartbeat = some hb ∧ hb < now - tm * 60) :
    staleHit now tm r = true := by
  unfold staleHit
  rcases hhb with hnone | ⟨hb, hsome, hlt⟩
  · simp [hst, hnone]
  · simp [hst, hsome, hlt]

theorem staleHit_false {now : Time} {tm : Int} {r : Row}
    (h : r.status = Status.in_progress →
      ∃ hb, r.heartbeat = some hb ∧ now - tm * 60 ≤ hb) :
    staleHit now tm r = false := by
  unfold staleHit
  by_cases hst : r.status = Status.in_progress
  · obtain ⟨hb, hsome, hge⟩ := h hst
    have hnl : ¬(hb < now - tm * 60) := not_lt.mpr hge
    simp [hst, hsome, hnl]
  · simp [hst]

theorem reset_stale_resets {db : DB} {now : Time} {tm : Int} {r : Row}
    (hr : r ∈ db) (hhit : staleHit now tm r = true) :
    { r with status := Status.awaiting, started_at := Option.none,
             instance_id := Option.none, heartbeat := Option.none } ∈
      (reset_stale_pairs db now tm).2 := by
  unfold reset_stale_pairs
  exact List.mem_map.mpr ⟨r, hr, by rw [if_pos hhit]⟩

theorem reset_stale_keeps {db : DB} {now : Time} {tm : Int} {r : Row}
    (hr : r ∈ db) (hhit : staleHit now tm r = false) :
    r ∈ (reset_stale_pairs db now tm).2 := by
  unfold reset_stale_pairs
  exact List.mem_map.mpr ⟨r, hr, by rw [if_neg (by simp [hhit])]⟩

/-- C6: the sweep resets every `in_progress` task whose heartbeat is older
than the staleness cutoff (or NULL) back to `awaiting`, clearing owner,
started_at and heartbeat, regardless of which instance owns it and with no
release call involved; tasks with a fresh heartbeat are kept as they are; the
periodic monitor tick invokes the sweep with a 3-minute threshold, while the
independently-invocable sweep defaults to 5 minutes. -/
theorem reset_stale_pairs_spec (db : DB) (now : Time) (tm : Int) (inst : String)
    (active : List Nat) :
    (∀ r ∈ db, r.status = Status.in_progress →
      (r.heartbeat = Option.none ∨ ∃ hb, r.heartbeat = some hb ∧ hb < now - tm * 60) →
      { r with status := Status.awaiting, started_at := Option.none,
               instance_id := Option.none, heartbeat := Option.none } ∈
        (reset_stale_pairs db now tm).2) ∧
    (∀ r ∈ db, (r.status = Status.in_progress →
        ∃ hb, r.heartbeat = some hb ∧ now - tm * 60 ≤ hb) →
      r ∈ (reset_stale_pairs db now tm).2) ∧
    (∀ r ∈ db, r.status = Status.in_progress →
      (∀ hb, r.heartbeat = some hb → hb < now - 3 * 60) →
      ¬(active.contains r.id = true ∧ r.instance_id = some inst) →
      { r with status := Status.awaiting, started_at := Option.none,
               instance_id := Option.none, heartbeat := Option.none } ∈
        heartbeat_tick inst active now db) ∧
    (reset_stale_pairs db now = reset_stale_pairs db now 5) := by
  refine ⟨?_, ?_, ?_, rfl⟩
  · intro r hr hst hhb
    exact reset_stale_resets hr (staleHit_true hst hhb)
  · intro r hr hfresh
    exact reset_stale_keeps hr (staleHit_false hfresh)
  · intro r hr hst hhb hnotmine
    have hrb : r ∈ batch_update_heartbeats inst active now db := by
      unfold batch_update_heartbeats
      by_cases he : active.isEmpty
      · rw [if_pos he]
        exact hr
      · rw [if_neg he]
        refine List.mem_map.mpr ⟨r, hr, ?_⟩
        have hcf : (active.contains r.id &&
            decide (r.instance_id = some inst ∧ r.status = Status.in_progress)) = false := by
          by_contra hb
          simp only [Bool.not_eq_false, Bool.and_eq_true, decide_eq_true_eq] at hb
          exact hnotmine ⟨hb.1, hb.2.1⟩
        rw [if_neg (fun hb => by rw [hcf] at hb; cases hb)]
    have hhit : staleHit now 3 r = true := by
      apply staleHit_true hst
      cases hcase : r.heartbeat with
      | none => exact Or.inl rfl
      | some hb => exact Or.inr ⟨hb, rfl, hhb hb hcase⟩
    exact reset_stale_resets hrb hhit

theorem reset_stale_pairs_spec_witness :
    { claimedRow with status := Status.awaiting, started_at := Option.none,
                      instance_id := Option.none, heartbeat := Option.none } ∈
      (reset_stale_pairs claimedDB 1000 5).2 :=
  (reset_stale_pairs_spec claimedDB 1000 5 "B" []).1 claimedRow (by decide) (by decide)
    (Or.inr ⟨0, by decide, by decide⟩)

/-- A row that is `in_progress` but has no heartbeat, as C10 postulates. -/
def nullHbRow : Row :=
  { id := 9, uuid1 := "uX", image1_path := "imgX1", bbox1 := "bX1", cluster1 := "cX1",
    uuid2 := "uY", image2_path := "imgX2", bbox2 := "bX2", cluster2 := "cX2",
    status := Status.in_progress, decision := Decision.none,
    started_at := some 5, completed_at := Option.none,
    instance_id := some "Z", heartbeat := Option.none }

/-- C10: the stale-lease sweep also resets every `in_progress` task whose
heartbeat is NULL back to `awaiting`, for every threshold, clock reading and
owner — a NULL heartbeat is treated like one older than the cutoff, so such a
row is reclaimed on the very next sweep. -/
theorem reset_stale_null_heartbeat (db : DB) (now : Time) (tm : Int) (r : Row)
    (h1 : r ∈ db) (h2 : r.status = Status.in_progress)
    (h3 : r.heartbeat = Option.none) :
    { r with status := Status.awaiting, started_at := Option.none,
             instance_id := Option.none, heartbeat := Option.none } ∈
      (reset_stale_pairs db now tm).2 := by
  apply reset_stale_resets h1
  unfold staleHit
  simp [h2, h3]

theorem reset_stale_null_heartbeat_witness :
    { nullHbRow with status := Status.awaiting, started_at := Option.none,
                     instance_id := Option.none, heartbeat := Option.none } ∈
      (reset_stale_pairs [nullHbRow] 0 99).2 :=
  reset_stale_null_heartbeat [nullHbRow] 0 99 nullHbRow (by decide) (by decide) (by decide)

/-! ### C8: idempotent batch insert -/

theorem add_image_pairs_aux : ∀ (pairs : List PairInput) (db : DB), WF db →
    WF (add_image_pairs pairs db).2 ∧
    (∃ ext, (add_image_pairs pairs db).2 = db ++ ext) ∧
    (add_image_pairs pairs db).1 + db.length = (add_image_pairs pairs db).2.length ∧
    (add_image_pairs pairs db).1 ≤ pairs.length := by
  intro pairs
  induction pairs with
  | nil =>
    intro db hWF
    exact ⟨hWF, ⟨[], by simp [add_image_pairs]⟩, by simp [add_image_pairs],
      by simp [add_image_pairs]⟩
  | cons p rest ih =>
    intro db hWF
    by_cases hdup : db.any (fun x => decide (x.id = p.id)) = true
    · have heq : add_image_pairs (p :: rest) db = add_image_pairs rest db := by
        simp only [add_image_pairs]
        rw [if_pos hdup]
      rw [heq]
      obtain ⟨h1, h2, h3, h4⟩ := ih db hWF
      exact ⟨h1, h2, h3, by simp only [List.length_cons]; omega⟩
    · have heq : add_image_pairs (p :: rest) db =
          ((add_image_pairs rest (db ++ [newRow p])).1 + 1,
           (add_image_pairs rest (db ++ [newRow p])).2) := by
        simp only [add_image_pairs]
        rw [if_neg hdup]
      have hWF2 : WF (db ++ [newRow p]) := by
        unfold WF at hWF ⊢
        rw [List.map_append, List.nodup_append]
        refine ⟨hWF, List.nodup_singleton _, ?_⟩
        intro a ha hb
        simp only [List.map_cons, List.map_nil, List.mem_singleton] at hb
        subst hb
        rw [List.mem_map] at ha
        obtain ⟨x, hx, hxe⟩ := ha
        exact hdup (List.any_eq_true.mpr ⟨x, hx, by simp [hxe, newRow]⟩)
      obtain ⟨h1, h2, h3, h4⟩ := ih (db ++ [newRow p]) hWF2
      obtain ⟨ext, hext⟩ := h2
      rw [heq]
      refine ⟨h1, ⟨newRow p :: ext, ?_⟩, ?_, ?_⟩
      · simp only
        rw [hext, List.append_assoc]
        rfl
      · simp only
        have hlen : (db ++ [newRow p]).length = db.length + 1 := by simp
        omega
      · simp only [List.length_cons]
        omega

/-- C8: `add_image_pairs` inserts a batch of new tasks with status `awaiting`
and decision `none`; an element whose id already exists in the table is
silently ignored — the existing row is not modified and no error arises — and
the returned count is the number of rows actually inserted, which may be less
than the input length. -/
theorem add_image_pairs_spec (pairs : List PairInput) (db : DB) (hWF : WF db) :
    WF (add_image_pairs pairs db).2 ∧
    (∃ ext, (add_image_pairs pairs db).2 = db ++ ext) ∧
    (add_image_pairs pairs db).1 + db.length = (add_image_pairs pairs db).2.length ∧
    (add_image_pairs pairs db).1 ≤ pairs.length ∧
    (∀ i r, findRow db i = some r → findRow (add_image_pairs pairs db).2 i = some r) ∧
    (∀ r, r ∈ (add_image_pairs pairs db).2 → r ∉ db →
      r.status = Status.awaiting ∧ r.decision = Decision.none ∧
        ∃ p ∈ pairs, r = newRow p) := by
  obtain ⟨h1, h2, h3, h4⟩ := add_image_pairs_aux pairs db hWF
  refine ⟨h1, h2, h3, h4, ?_, ?_⟩
  · intro i r hfr
    obtain ⟨ext, hext⟩ := h2
    rw [hext]
    exact findRow_append_left hfr
  · intro r hr hnd
    rcases add_image_pairs_mem pairs db r hr with hmem | ⟨p, hp, rfl⟩
    · exact absurd hmem hnd
    · exact ⟨rfl, rfl, p, hp, rfl⟩

theorem add_image_pairs_spec_witness :
    (add_image_pairs [pairA, pairB] sampleDB).1 + sampleDB.length =
      (add_image_pairs [pairA, pairB] sampleDB).2.length ∧
    (add_image_pairs [pairA, pairB] sampleDB).1 ≤ [pairA, pairB].length :=
  ⟨(add_image_pairs_spec [pairA, pairB] sampleDB (by unfold WF; decide)).2.2.1,
   (add_image_pairs_spec [pairA, pairB] sampleDB (by unfold WF; decide)).2.2.2.1⟩

/-! ### C9: pair lookups are symmetric in the two identity tokens -/

/-- C9: `get_existing_pair_decision` and `check_pair_exists` return the same
result whether called as `(a, b)` or `(b, a)`; the former returns a decision
only when the matched row's status is `checked` or `sent`, and `None`
otherwise. -/
theorem pair_lookup_symmetric (a b : String) (db : DB) :
    get_existing_pair_decision a b db = get_existing_pair_decision b a db ∧
    check_pair_exists a b db = check_pair_exists b a db ∧
    (∀ d, get_existing_pair_decision a b db = some d →
      ∃ r ∈ db, pairWhere a b r = true ∧
        (r.status = Status.checked ∨ r.status = Status.sent) ∧ r.decision = d) ∧
    ((∀ r ∈ db, pairWhere a b r = true →
        ¬(r.status = Status.checked ∨ r.status = Status.sent)) →
      get_existing_pair_decision a b db = Option.none) := by
  have hsymm : pairWhere a b = pairWhere b a := by
    funext r
    unfold pairWhere
    rw [decide_eq_decide]
    tauto
  refine ⟨?_, ?_, ?_, ?_⟩
  · unfold get_existing_pair_decision
    rw [hsymm]
  · unfold check_pair_exists
    rw [hsymm]
  · intro d hd
    unfold get_existing_pair_decision at hd
    obtain ⟨r, hfr, hrd⟩ := Option.map_eq_some'.mp hd
    have hp := List.find?_some hfr
    simp only [Bool.and_eq_true, decide_eq_true_eq] at hp
    exact ⟨r, List.mem_of_find?_eq_some hfr, hp.1, hp.2, hrd⟩
  · intro hno
    unfold get_existing_pair_decision
    have hnone : db.find? (fun r => pairWhere a b r &&
        decide (r.status = Status.checked ∨ r.status = Status.sent)) = Option.none := by
      rw [List.find?_eq_none]
      intro x hx hbx
      simp only [Bool.and_eq_true, decide_eq_true_eq] at hbx
      exact hno x hx hbx.1 hbx.2
    rw [hnone]
    rfl

theorem pair_lookup_symmetric_witness :
    get_existing_pair_decision "uA" "uB" checkedDB =
      get_existing_pair_decision "uB" "uA" checkedDB ∧
    ∃ r ∈ checkedDB, pairWhere "uA" "uB" r = true ∧
      (r.status = Status.checked ∨ r.status = Status.sent) ∧
      r.decision = Decision.correct :=
  ⟨(pair_lookup_symmetric "uA" "uB" checkedDB).1,
   (pair_lookup_symmetric "uA" "uB" checkedDB).2.2.1 Decision.correct (by decide)⟩

end VAREID
